import Mathlib

/-!
Shallow embedding of the content_inspector crate (src/lib.rs): a classifier
that inspects a byte buffer and guesses its type of content.  Bytes are
modelled as natural numbers and byte slices as lists of naturals; the
classifier and its constant tables are translated directly from the Rust
source.
-/

/-- The type of encoding that was detected (for "text" data) or `BINARY` for
"binary" data.  Mirrors the Rust enum `ContentType`. -/
inductive ContentType where
  | BINARY
  | UTF_8
  | UTF_8_BOM
  | UTF_16LE
  | UTF_16BE
  | UTF_32LE
  | UTF_32BE
  deriving DecidableEq, Repr

/-- Returns `true`, if the `ContentType` is `BINARY`. -/
def ContentType.is_binary (self : ContentType) : Bool :=
  self == ContentType.BINARY

/-- Returns `true`, if the `ContentType` is not `BINARY`. -/
def ContentType.is_text (self : ContentType) : Bool :=
  !self.is_binary

/-- The canonical display name of a `ContentType`: the Rust
`fmt::Display` implementation, which writes one fixed string per variant. -/
def ContentType.display : ContentType → String
  | .BINARY => "binary"
  | .UTF_8 => "UTF-8"
  | .UTF_8_BOM => "UTF-8-BOM"
  | .UTF_16LE => "UTF-16LE"
  | .UTF_16BE => "UTF-16BE"
  | .UTF_32LE => "UTF-32LE"
  | .UTF_32BE => "UTF-32BE"

/-- MAX_SCAN_SIZE: only the first 1024 bytes are scanned for NULL bytes. -/
def MAX_SCAN_SIZE : Nat := 1024

/-- Common byte order marks, in the order of the Rust table
`BYTE_ORDER_MARKS` (the UTF-32 entries come before the overlapping UTF-16
entries). -/
def BYTE_ORDER_MARKS : List (List Nat × ContentType) :=
  [([0xEF, 0xBB, 0xBF], ContentType.UTF_8_BOM),
   ([0x00, 0x00, 0xFE, 0xFF], ContentType.UTF_32BE),
   ([0xFF, 0xFE, 0x00, 0x00], ContentType.UTF_32LE),
   ([0xFE, 0xFF], ContentType.UTF_16BE),
   ([0xFF, 0xFE], ContentType.UTF_16LE)]

/-- Magic numbers for some filetypes that could otherwise be characterized
as text: the byte values of the Rust literals b"%PDF" and b"\x89PNG". -/
def MAGIC_NUMBERS : List (List Nat) :=
  [[0x25, 0x50, 0x44, 0x46], [0x89, 0x50, 0x4E, 0x47]]

/-- The `for` loop over `BYTE_ORDER_MARKS` at the start of `inspect`: return
the content type of the first table entry whose byte sequence starts the
buffer, or `none` when no entry matches. -/
def bomMatch (buffer : List Nat) :
    List (List Nat × ContentType) → Option ContentType
  | [] => none
  | (bom, content_type) :: rest =>
      if bom.isPrefixOf buffer then some content_type
      else bomMatch buffer rest

/-- Try to determine the type of content in the given buffer: the Rust
function `inspect`.  First the BOM loop, then the zero-byte scan over the
first `min (length buffer) MAX_SCAN_SIZE` bytes (the `memchr` call), then
the magic-number check, then the `UTF_8` default. -/
def inspect (buffer : List Nat) : ContentType :=
  match bomMatch buffer BYTE_ORDER_MARKS with
  | some content_type => content_type
  | none =>
      let scan_size := min buffer.length MAX_SCAN_SIZE
      let has_zero_bytes := (buffer.take scan_size).any fun b => b == 0x00
      if has_zero_bytes then
        ContentType.BINARY
      else if MAGIC_NUMBERS.any fun magic => magic.isPrefixOf buffer then
        ContentType.BINARY
      else
        ContentType.UTF_8

/-- Claim C6: inspect applied to the empty buffer returns UTF_8. -/
theorem inspect_empty_utf8 : inspect [] = ContentType.UTF_8 := rfl

/-- Claim C7: inspect is total: for every byte buffer it returns exactly one
value of the closed ContentType enumeration, which is one of the seven
listed variants; being a Lean function, it terminates and has no other
outcome. -/
theorem inspect_total :
    ∀ buffer : List Nat,
      (∃! content_type : ContentType, inspect buffer = content_type) ∧
      (inspect buffer = ContentType.BINARY ∨
       inspect buffer = ContentType.UTF_8 ∨
       inspect buffer = ContentType.UTF_8_BOM ∨
       inspect buffer = ContentType.UTF_16LE ∨
       inspect buffer = ContentType.UTF_16BE ∨
       inspect buffer = ContentType.UTF_32LE ∨
       inspect buffer = ContentType.UTF_32BE) := by
  intro buffer
  refine ⟨⟨inspect buffer, rfl, fun y h => h.symm⟩, ?_⟩
  cases h : inspect buffer <;> simp

/-- Claim C8: for every ContentType x, is_binary x is true exactly when x is
BINARY, is_text x is the negation of is_binary x, and exactly one of the
two predicates holds. -/
theorem is_binary_is_text_exclusive :
    ∀ x : ContentType,
      (x.is_binary = true ↔ x = ContentType.BINARY) ∧
      x.is_text = !x.is_binary ∧
      ((x.is_binary = true ∧ x.is_text = false) ∨
       (x.is_binary = false ∧ x.is_text = true)) := by
  intro x
  cases x <;> decide

/-- Claim C9: the display function maps each ContentType variant to its one
canonical display name. -/
theorem display_names :
    ContentType.display ContentType.BINARY = "binary" ∧
    ContentType.display ContentType.UTF_8 = "UTF-8" ∧
    ContentType.display ContentType.UTF_8_BOM = "UTF-8-BOM" ∧
    ContentType.display ContentType.UTF_16LE = "UTF-16LE" ∧
    ContentType.display ContentType.UTF_16BE = "UTF-16BE" ∧
    ContentType.display ContentType.UTF_32LE = "UTF-32LE" ∧
    ContentType.display ContentType.UTF_32BE = "UTF-32BE" :=
  ⟨rfl, rfl, rfl, rfl, rfl, rfl, rfl⟩

/-- Claim C1: a buffer whose first four bytes are FF FE 00 00 is classified
UTF_32LE (and not UTF_16LE), and a buffer whose first four bytes are
00 00 FE FF is classified UTF_32BE: the UTF-32 table entries win over the
overlapping UTF-16 entries. -/
theorem inspect_utf32_bom_wins :
    ∀ rest : List Nat,
      (inspect (0xFF :: 0xFE :: 0x00 :: 0x00 :: rest) = ContentType.UTF_32LE ∧
       inspect (0xFF :: 0xFE :: 0x00 :: 0x00 :: rest) ≠ ContentType.UTF_16LE) ∧
      inspect (0x00 :: 0x00 :: 0xFE :: 0xFF :: rest) = ContentType.UTF_32BE := by
  intro rest
  refine ⟨⟨?_, ?_⟩, ?_⟩ <;>
    simp [inspect, bomMatch, BYTE_ORDER_MARKS, List.isPrefixOf]

/-- If some entry of the table matches the buffer, the BOM loop returns the
content type of a matching entry of the table. -/
theorem bomMatch_isSome_of_mem
    (l : List (List Nat × ContentType)) (buffer bom : List Nat)
    (content_type : ContentType)
    (hmem : (bom, content_type) ∈ l)
    (hpre : bom.isPrefixOf buffer = true) :
    ∃ bom2 ct2, (bom2, ct2) ∈ l ∧ bom2.isPrefixOf buffer = true ∧
      bomMatch buffer l = some ct2 := by
  induction l with
  | nil => cases hmem
  | cons head tail ih =>
      obtain ⟨b, c⟩ := head
      by_cases h : b.isPrefixOf buffer = true
      · exact ⟨b, c, List.mem_cons_self _ _, h, by simp [bomMatch, h]⟩
      · rcases List.mem_cons.mp hmem with heq | htail
        · cases heq
          exact absurd hpre h
        · obtain ⟨b2, c2, hm, hp, he⟩ := ih htail
          refine ⟨b2, c2, List.mem_cons_of_mem _ hm, hp, ?_⟩
          simpa [bomMatch, h] using he

/-- Claim C2: for every buffer whose first bytes equal a BOM listed in the
byte-order-mark table, inspect returns the associated ContentType of a
matching BOM entry of the table, and in particular never BINARY: BOM
detection takes precedence over the zero-byte scan, even when the buffer
contains 0x00 bytes within its first 1024 bytes after the BOM. -/
theorem inspect_bom_precedence
    (buffer bom : List Nat) (content_type : ContentType)
    (hmem : (bom, content_type) ∈ BYTE_ORDER_MARKS)
    (hpre : bom.isPrefixOf buffer = true) :
    ∃ bom2 ct2, (bom2, ct2) ∈ BYTE_ORDER_MARKS ∧
      bom2.isPrefixOf buffer = true ∧ inspect buffer = ct2 ∧
      inspect buffer ≠ ContentType.BINARY := by
  obtain ⟨b2, c2, hm, hp, he⟩ :=
    bomMatch_isSome_of_mem BYTE_ORDER_MARKS buffer bom content_type hmem hpre
  have hres : inspect buffer = c2 := by simp [inspect, he]
  refine ⟨b2, c2, hm, hp, hres, ?_⟩
  rw [hres]
  have : c2 ≠ ContentType.BINARY := by
    simp only [BYTE_ORDER_MARKS, List.mem_cons, List.not_mem_nil] at hm
    rcases hm with h | h | h | h | h | h <;>
      first
        | (cases h; decide)
        | cases h
  exact this

/-- Claim C2 witness: the buffer EF BB BF 41 00 42 starts with the UTF-8 BOM
and has a zero byte after it; inspect classifies it by its BOM entry. -/
theorem inspect_bom_precedence_witness :
    ∃ bom2 ct2, (bom2, ct2) ∈ BYTE_ORDER_MARKS ∧
      bom2.isPrefixOf [0xEF, 0xBB, 0xBF, 0x41, 0x00, 0x42] = true ∧
      inspect [0xEF, 0xBB, 0xBF, 0x41, 0x00, 0x42] = ct2 ∧
      inspect [0xEF, 0xBB, 0xBF, 0x41, 0x00, 0x42] ≠ ContentType.BINARY :=
  inspect_bom_precedence [0xEF, 0xBB, 0xBF, 0x41, 0x00, 0x42]
    [0xEF, 0xBB, 0xBF] ContentType.UTF_8_BOM (by decide) (by decide)

/-- If no entry of the table matches the buffer, the BOM loop falls through
and returns `none`. -/
theorem bomMatch_eq_none_of_all
    (l : List (List Nat × ContentType)) (buffer : List Nat)
    (h : (l.all fun p => ! p.1.isPrefixOf buffer) = true) :
    bomMatch buffer l = none := by
  induction l with
  | nil => rfl
  | cons head tail ih =>
      obtain ⟨b, c⟩ := head
      simp only [List.all_cons, Bool.and_eq_true, Bool.not_eq_eq_eq_not,
        Bool.not_true] at h
      simp [bomMatch, h.1, ih h.2]

/-- When every element of a list fails a Boolean test, the `any` over that
test is false. -/
theorem any_eq_false_of_all_not (l : List Nat) (p : Nat → Bool)
    (h : (l.all fun a => ! p a) = true) : l.any p = false := by
  simp only [List.all_eq_true, Bool.not_eq_eq_eq_not, Bool.not_true] at h
  simp only [List.any_eq_false]
  intro x hx
  simp [h x hx]

/-- Claim C3: a buffer that starts with no BOM-table entry and has a byte
0x00 at some index below min (length buffer) 1024 is classified BINARY. -/
theorem inspect_zero_byte_binary (buffer : List Nat)
    (hbom : (BYTE_ORDER_MARKS.all fun p => ! p.1.isPrefixOf buffer) = true)
    (hzero : ∃ i, i < min buffer.length MAX_SCAN_SIZE ∧ buffer.getD i 1 = 0) :
    inspect buffer = ContentType.BINARY := by
  obtain ⟨i, hi, hz⟩ := hzero
  have hlen : i < buffer.length := lt_of_lt_of_le hi (min_le_left _ _)
  have hget : buffer[i] = 0 := by
    have := List.getD_eq_getElem?_getD buffer i 1
    rw [hz] at this
    rw [List.getElem?_eq_getElem hlen] at this
    simpa using this.symm
  have hmem : 0 ∈ buffer.take (min buffer.length MAX_SCAN_SIZE) := by
    have hlt : i < (buffer.take (min buffer.length MAX_SCAN_SIZE)).length := by
      simpa [List.length_take] using lt_min hi hlen
    have hx : (buffer.take (min buffer.length MAX_SCAN_SIZE))[i] = 0 := by
      rw [List.getElem_take]
      exact hget
    exact hx ▸ List.getElem_mem _
  have hany :
      ((buffer.take (min buffer.length MAX_SCAN_SIZE)).any
        fun b => b == 0x00) = true := by
    simp only [List.any_eq_true]
    exact ⟨0, hmem, by decide⟩
  rw [inspect, bomMatch_eq_none_of_all BYTE_ORDER_MARKS buffer hbom]
  simp [hany]

/-- Claim C3 witness: the buffer 41 00 42 has no BOM and a zero byte at
index 1, so it is classified BINARY. -/
theorem inspect_zero_byte_binary_witness :
    (BYTE_ORDER_MARKS.all fun p => ! p.1.isPrefixOf [0x41, 0x00, 0x42]) = true ∧
    inspect [0x41, 0x00, 0x42] = ContentType.BINARY :=
  ⟨by decide,
   inspect_zero_byte_binary [0x41, 0x00, 0x42] (by decide)
     ⟨1, by decide, by decide⟩⟩

/-- Claim C4: a buffer that starts with no BOM-table entry, has no zero byte
among its first min (length buffer) 1024 bytes, and starts with no
magic-number entry, is classified UTF_8 - even when it has zero bytes at
indices at or beyond 1024. -/
theorem inspect_default_utf8 (buffer : List Nat)
    (hbom : (BYTE_ORDER_MARKS.all fun p => ! p.1.isPrefixOf buffer) = true)
    (hzero : ((buffer.take (min buffer.length MAX_SCAN_SIZE)).all
      fun b => !(b == 0x00)) = true)
    (hmagic : (MAGIC_NUMBERS.all fun magic => ! magic.isPrefixOf buffer) = true) :
    inspect buffer = ContentType.UTF_8 := by
  rw [inspect, bomMatch_eq_none_of_all BYTE_ORDER_MARKS buffer hbom]
  have h1 := any_eq_false_of_all_not _ _ hzero
  have h2 : (MAGIC_NUMBERS.any fun magic => magic.isPrefixOf buffer) = false := by
    simp only [List.all_eq_true, Bool.not_eq_eq_eq_not, Bool.not_true] at hmagic
    simp only [List.any_eq_false]
    intro x hx
    simp [hmagic x hx]
  simp [h1, h2]

set_option maxRecDepth 100000 in
/-- Claim C4 witness: 1024 bytes 0x41 followed by a zero byte: the zero lies
at index 1024, outside the scan window, so the buffer is UTF_8, not
BINARY. -/
theorem inspect_default_utf8_witness :
    ((List.replicate 1024 0x41 ++ [0x00]).any fun b => b == 0x00) = true ∧
    inspect (List.replicate 1024 0x41 ++ [0x00]) = ContentType.UTF_8 :=
  ⟨by decide,
   inspect_default_utf8 (List.replicate 1024 0x41 ++ [0x00])
     (by decide) (by decide) (by decide)⟩

/-- Claim C5: a buffer starting with the bytes of "%PDF" or of \x89PNG that
has no zero byte among its first min (length buffer) 1024 bytes is
classified BINARY by the magic-number check. -/
theorem inspect_magic_binary (buffer : List Nat)
    (hmagic : [0x25, 0x50, 0x44, 0x46].isPrefixOf buffer = true ∨
      [0x89, 0x50, 0x4E, 0x47].isPrefixOf buffer = true)
    (hzero : ((buffer.take (min buffer.length MAX_SCAN_SIZE)).all
      fun b => !(b == 0x00)) = true) :
    inspect buffer = ContentType.BINARY := by
  have h1 := any_eq_false_of_all_not _ _ hzero
  have hany : (MAGIC_NUMBERS.any fun magic => magic.isPrefixOf buffer) = true := by
    simp only [MAGIC_NUMBERS, List.any_cons, List.any_nil, Bool.or_eq_true,
      Bool.or_false]
    tauto
  have hbom : bomMatch buffer BYTE_ORDER_MARKS = none := by
    cases buffer with
    | nil =>
        rcases hmagic with h | h <;> simp [List.isPrefixOf] at h
    | cons x xs =>
        rcases hmagic with h | h <;>
          · simp only [List.isPrefixOf, Bool.and_eq_true, beq_iff_eq] at h
            obtain ⟨hx, _⟩ := h
            subst hx
            simp [bomMatch, BYTE_ORDER_MARKS, List.isPrefixOf]
  rw [inspect, hbom]
  simp [h1, hany]

/-- Claim C5 witness: the buffer holding the bytes of "%PDF-1.4" and a
newline has no zero bytes, so the magic-number check classifies it
BINARY. -/
theorem inspect_magic_binary_witness :
    [0x25, 0x50, 0x44, 0x46].isPrefixOf
      [0x25, 0x50, 0x44, 0x46, 0x2D, 0x31, 0x2E, 0x34, 0x0A] = true ∧
    inspect [0x25, 0x50, 0x44, 0x46, 0x2D, 0x31, 0x2E, 0x34, 0x0A] =
      ContentType.BINARY :=
  ⟨by decide,
   inspect_magic_binary [0x25, 0x50, 0x44, 0x46, 0x2D, 0x31, 0x2E, 0x34, 0x0A]
     (Or.inl (by decide)) (by decide)⟩

/-- Testing a pattern against a truncated buffer gives the same answer as
against the whole buffer, as soon as the kept length covers the pattern. -/
theorem isPrefixOf_take (p : List Nat) :
    ∀ (b : List Nat) (n : Nat), p.length ≤ n →
      p.isPrefixOf (b.take n) = p.isPrefixOf b := by
  induction p with
  | nil => intro b n _; simp
  | cons a as ih =>
      intro b n hn
      cases b with
      | nil => simp
      | cons x xs =>
          cases n with
          | zero => simp at hn
          | succ m =>
              rw [List.take_succ_cons, List.isPrefixOf_cons₂,
                List.isPrefixOf_cons₂, ih xs m (by simpa using hn)]

/-- The BOM loop result is unchanged by truncating the buffer, as soon as
the kept length covers every table entry. -/
theorem bomMatch_take (b : List Nat) (n : Nat) :
    ∀ l : List (List Nat × ContentType), (∀ p ∈ l, p.1.length ≤ n) →
      bomMatch (b.take n) l = bomMatch b l := by
  intro l
  induction l with
  | nil => intro _; rfl
  | cons head tail ih =>
      intro h
      obtain ⟨bom, c⟩ := head
      have h1 : bom.length ≤ n := h (bom, c) (List.mem_cons_self _ _)
      simp only [bomMatch, isPrefixOf_take bom b n h1,
        ih fun p hp => h p (List.mem_cons_of_mem _ hp)]

/-- The magic-number check is unchanged by truncating the buffer, as soon
as the kept length covers every magic number. -/
theorem any_isPrefixOf_take (b : List Nat) (n : Nat) :
    ∀ l : List (List Nat), (∀ p ∈ l, p.length ≤ n) →
      (l.any fun p => p.isPrefixOf (b.take n)) =
        l.any fun p => p.isPrefixOf b := by
  intro l
  induction l with
  | nil => intro _; rfl
  | cons head tail ih =>
      intro h
      simp only [List.any_cons,
        isPrefixOf_take head b n (h head (List.mem_cons_self _ _)),
        ih fun p hp => h p (List.mem_cons_of_mem _ hp)]

/-- inspect gives the same answer on the first MAX_SCAN_SIZE bytes of a
buffer as on the buffer itself: every check it performs is confined to
that window. -/
theorem inspect_take (b : List Nat) :
    inspect (b.take MAX_SCAN_SIZE) = inspect b := by
  have hlen4 : ∀ p ∈ BYTE_ORDER_MARKS, p.1.length ≤ MAX_SCAN_SIZE := by
    intro p hp
    simp only [BYTE_ORDER_MARKS, List.mem_cons, List.not_mem_nil,
      or_false] at hp
    rcases hp with h | h | h | h | h <;> (rw [h]; decide)
  have hbom := bomMatch_take b MAX_SCAN_SIZE BYTE_ORDER_MARKS hlen4
  have hmag : ∀ p ∈ MAGIC_NUMBERS, p.length ≤ MAX_SCAN_SIZE := by
    intro p hp
    simp only [MAGIC_NUMBERS, List.mem_cons, List.not_mem_nil,
      or_false] at hp
    rcases hp with h | h <;> (rw [h]; decide)
  have hany := any_isPrefixOf_take b MAX_SCAN_SIZE MAGIC_NUMBERS hmag
  have hscan : (b.take MAX_SCAN_SIZE).take
      (min (b.take MAX_SCAN_SIZE).length MAX_SCAN_SIZE) =
      b.take (min b.length MAX_SCAN_SIZE) := by
    rw [List.take_take, List.length_take]
    congr 1
    omega
  simp only [inspect, hbom, hany, hscan]

/-- Claim C10: the result of inspect depends only on the first 1024 bytes
of its input: inspect of a buffer equals inspect of its first
min (length buffer) 1024 bytes, and any two buffers that agree on their
first 1024 bytes are classified identically. -/
theorem inspect_window (buffer : List Nat) :
    inspect buffer = inspect (buffer.take (min buffer.length MAX_SCAN_SIZE)) ∧
    ∀ b2 : List Nat, buffer.take MAX_SCAN_SIZE = b2.take MAX_SCAN_SIZE →
      inspect buffer = inspect b2 := by
  have hmin : buffer.take (min buffer.length MAX_SCAN_SIZE) =
      buffer.take MAX_SCAN_SIZE := by
    apply List.take_eq_take.mpr
    omega
  constructor
  · rw [hmin, inspect_take]
  · intro b2 h
    rw [← inspect_take buffer, h, inspect_take]

set_option maxRecDepth 100000 in
/-- Claim C10 witness: two buffers of length 1025 that differ only in their
last byte, beyond the window, are classified identically. -/
theorem inspect_window_witness :
    inspect (List.replicate 1024 0x41 ++ [0x00]) =
      inspect (List.replicate 1024 0x41 ++ [0x2A]) :=
  (inspect_window (List.replicate 1024 0x41 ++ [0x00])).2
    (List.replicate 1024 0x41 ++ [0x2A]) (by decide)
